import Mathlib

/-!
# Verification of the rkv typed transactional key/value layer

This development embeds the rkv core (a typed, transactional key/value
storage layer over LMDB) in Lean 4 and proves properties of its
specification against the embedding.

The repository ships three source files: `src/lib.rs` (crate docs and
re-exports), `src/backend/impl_lmdb/environment.rs` (the LMDB backend
adapter for environments and environment builders), and
`examples/simple-store.rs`.  The backend adapter is embedded directly
from its source.  The core modules that `lib.rs` declares (`env.rs`,
`manager.rs`, `store/`, `value.rs`) are not present in the tree, so
their behaviour is modelled from the specification, as marked on each
such definition.
-/

namespace Rkv

/-! ## Byte-sequence helpers

Bytes are modelled as natural numbers; encoders only emit values below
256.  Multi-byte integers are fixed-width little-endian, following the
specification's requirement of a fixed-width canonical byte order. -/

/-- A byte string. -/
abbrev Bytes := List Nat

/-- Little-endian encoding of `n` into exactly `w` bytes. -/
def natToLE : Nat → Nat → List Nat
  | 0, _ => []
  | w + 1, n => n % 256 :: natToLE w (n / 256)

/-- Little-endian decoding of a byte list into a natural number. -/
def leToNat : List Nat → Nat
  | [] => 0
  | b :: bs => b % 256 + 256 * leToNat bs

theorem natToLE_length (w n : Nat) : (natToLE w n).length = w := by
  induction w generalizing n with
  | zero => rfl
  | succ w ih => simp [natToLE, ih]

theorem leToNat_natToLE (w n : Nat) (h : n < 256 ^ w) :
    leToNat (natToLE w n) = n := by
  induction w generalizing n with
  | zero =>
    simp [natToLE, leToNat]
    omega
  | succ w ih =>
    have hdiv : n / 256 < 256 ^ w := by
      rw [Nat.div_lt_iff_lt_mul (by omega)]
      calc n < 256 ^ (w + 1) := h
      _ = 256 ^ w * 256 := by rw [Nat.pow_succ]
    simp [natToLE, leToNat, ih (n / 256) hdiv]
    omega

/-! ## Value codec

Modelled from the spec: the concrete codec lives in `value.rs`, which is
not in the tree.  Per spec section 4.1 and the data model, a value is a
tagged union over booleans, signed and unsigned 64-bit integers,
IEEE-754 doubles, timestamps, UTF-8 strings, blobs and JSON text; the
encoding is a one-byte type tag followed by a type-specific payload:
integers fixed-width, strings/blobs/JSON length-prefixed. -/

/-- Modelled from the spec: the tagged value union of `value.rs` (absent
from the tree).  Strings and JSON carry their UTF-8 bytes; `f64` carries
the raw 8-byte IEEE-754 pattern, uninterpreted. -/
inductive Value where
  | bool (b : Bool)
  | i64 (i : Int)
  | u64 (n : Nat)
  | f64 (bits : List Nat)
  | instant (n : Nat)
  | str (s : List Nat)
  | json (s : List Nat)
  | blob (s : List Nat)
deriving DecidableEq, Repr

/-- Modelled from the spec: a decode error carrying the offending bytes. -/
structure DecodeError where
  offending : List Nat
deriving DecidableEq, Repr

/-- The logical type tag of a value. -/
inductive Tag where
  | bool | i64 | u64 | f64 | instant | str | json | blob
deriving DecidableEq, Repr

/-- The tag of a value. -/
def tagOf : Value → Tag
  | .bool _ => .bool
  | .i64 _ => .i64
  | .u64 _ => .u64
  | .f64 _ => .f64
  | .instant _ => .instant
  | .str _ => .str
  | .json _ => .json
  | .blob _ => .blob

/-- Well-formedness of a value: numeric payloads fit their fixed 64-bit
width, the double's bit pattern is 8 bytes, byte payloads fit the
64-bit length prefix. -/
def Value.wf : Value → Prop
  | .bool _ => True
  | .i64 i => -(2 ^ 63) ≤ i ∧ i < 2 ^ 63
  | .u64 n => n < 2 ^ 64
  | .f64 bits => bits.length = 8
  | .instant n => n < 2 ^ 64
  | .str s => s.length < 2 ^ 64
  | .json s => s.length < 2 ^ 64
  | .blob s => s.length < 2 ^ 64

instance (v : Value) : Decidable v.wf := by
  cases v <;> simp [Value.wf] <;> infer_instance

/-- Two's-complement image of a signed 64-bit integer. -/
def i64ToNat (i : Int) : Nat := (i % (2 ^ 64 : Int)).toNat

/-- Inverse of `i64ToNat` on the 64-bit range. -/
def natToI64 (n : Nat) : Int :=
  if n < 2 ^ 63 then (n : Int) else (n : Int) - 2 ^ 64

theorem natToI64_i64ToNat (i : Int) (h1 : -(2 ^ 63) ≤ i) (h2 : i < 2 ^ 63) :
    natToI64 (i64ToNat i) = i := by
  unfold natToI64 i64ToNat
  have hmod : i % (2 ^ 64 : Int) = if 0 ≤ i then i else i + 2 ^ 64 := by
    split <;> omega
  split <;> omega

theorem i64ToNat_lt (i : Int) : i64ToNat i < 256 ^ 8 := by
  unfold i64ToNat
  omega

/-- Modelled from the spec: `encode(Value) -> bytes` of `value.rs`
(absent from the tree): one tag byte, then a single byte for booleans, a
fixed-width little-endian payload for numerics, and an 8-byte length
prefix followed by the raw bytes for strings, JSON and blobs. -/
def encode : Value → List Nat
  | .bool b => [0, if b then 1 else 0]
  | .i64 i => 1 :: natToLE 8 (i64ToNat i)
  | .u64 n => 2 :: natToLE 8 n
  | .f64 bits => 3 :: bits
  | .instant n => 4 :: natToLE 8 n
  | .str s => 5 :: (natToLE 8 s.length ++ s)
  | .json s => 6 :: (natToLE 8 s.length ++ s)
  | .blob s => 7 :: (natToLE 8 s.length ++ s)

/-- Decode a length-prefixed payload: exactly 8 bytes of length, then
exactly that many bytes. -/
def decodePrefixed (p : List Nat) : Option (List Nat) :=
  if 8 ≤ p.length ∧ (p.drop 8).length = leToNat (p.take 8) then
    some (p.drop 8)
  else
    none

/-- Modelled from the spec: `decode(bytes) -> Result<Value, DecodeError>`
of `value.rs` (absent from the tree).  Rejects empty input, unknown
tags, wrong payload widths, inconsistent boolean payloads and
inconsistent length prefixes, always returning a `DecodeError` carrying
the offending bytes. -/
def decode (bs : List Nat) : Except DecodeError Value :=
  match bs with
  | [] => .error ⟨bs⟩
  | t :: p =>
    if t = 0 then
      match p with
      | [0] => .ok (.bool false)
      | [1] => .ok (.bool true)
      | _ => .error ⟨bs⟩
    else if t = 1 then
      if p.length = 8 then .ok (.i64 (natToI64 (leToNat p))) else .error ⟨bs⟩
    else if t = 2 then
      if p.length = 8 then .ok (.u64 (leToNat p)) else .error ⟨bs⟩
    else if t = 3 then
      if p.length = 8 then .ok (.f64 p) else .error ⟨bs⟩
    else if t = 4 then
      if p.length = 8 then .ok (.instant (leToNat p)) else .error ⟨bs⟩
    else if t = 5 then
      match decodePrefixed p with
      | some s => .ok (.str s)
      | none => .error ⟨bs⟩
    else if t = 6 then
      match decodePrefixed p with
      | some s => .ok (.json s)
      | none => .error ⟨bs⟩
    else if t = 7 then
      match decodePrefixed p with
      | some s => .ok (.blob s)
      | none => .error ⟨bs⟩
    else
      .error ⟨bs⟩

/-- Modelled from the spec: a typed accessor that reads a stored byte
string expecting a particular logical type, failing with a decode error
if the stored tag differs. -/
def decodeAs (t : Tag) (bs : List Nat) : Except DecodeError Value :=
  match decode bs with
  | .ok v => if tagOf v = t then .ok v else .error ⟨bs⟩
  | .error e => .error e

theorem decode_tag1 (p : List Nat) (h : p.length = 8) :
    decode (1 :: p) = .ok (.i64 (natToI64 (leToNat p))) := by
  simp [decode, h]

theorem decode_tag2 (p : List Nat) (h : p.length = 8) :
    decode (2 :: p) = .ok (.u64 (leToNat p)) := by
  simp [decode, h]

theorem decode_tag3 (p : List Nat) (h : p.length = 8) :
    decode (3 :: p) = .ok (.f64 p) := by
  simp [decode, h]

theorem decode_tag4 (p : List Nat) (h : p.length = 8) :
    decode (4 :: p) = .ok (.instant (leToNat p)) := by
  simp [decode, h]

theorem decode_tag5 (p s : List Nat) (h : decodePrefixed p = some s) :
    decode (5 :: p) = .ok (.str s) := by
  simp [decode, h]

theorem decode_tag6 (p s : List Nat) (h : decodePrefixed p = some s) :
    decode (6 :: p) = .ok (.json s) := by
  simp [decode, h]

theorem decode_tag7 (p s : List Nat) (h : decodePrefixed p = some s) :
    decode (7 :: p) = .ok (.blob s) := by
  simp [decode, h]

theorem decodePrefixed_encode (s : List Nat) (h : s.length < 2 ^ 64) :
    decodePrefixed (natToLE 8 s.length ++ s) = some s := by
  have hlen : (natToLE 8 s.length).length = 8 := natToLE_length 8 s.length
  have h1 : (natToLE 8 s.length ++ s).take 8 = natToLE 8 s.length := by
    rw [List.take_append_of_le_length (by omega), List.take_of_length_le (by omega)]
  have h2 : (natToLE 8 s.length ++ s).drop 8 = s := by
    rw [List.drop_append_of_le_length (by omega), List.drop_eq_nil_of_le (by omega)]
    simp
  unfold decodePrefixed
  rw [h1, h2, leToNat_natToLE 8 s.length (by omega)]
  simp [hlen]

/-- Round-trip: decoding a well-formed value's encoding recovers it. -/
theorem decode_encode (v : Value) (h : v.wf) : decode (encode v) = .ok v := by
  cases v with
  | bool b => cases b <;> rfl
  | i64 i =>
    rw [encode, decode_tag1 _ (natToLE_length 8 _),
      leToNat_natToLE 8 (i64ToNat i) (i64ToNat_lt i), natToI64_i64ToNat i h.1 h.2]
  | u64 n =>
    rw [encode, decode_tag2 _ (natToLE_length 8 _),
      leToNat_natToLE 8 n (by simp [Value.wf] at h; omega)]
  | f64 bits =>
    rw [encode, decode_tag3 _ h]
  | instant n =>
    rw [encode, decode_tag4 _ (natToLE_length 8 _),
      leToNat_natToLE 8 n (by simp [Value.wf] at h; omega)]
  | str s =>
    rw [encode, decode_tag5 _ _ (decodePrefixed_encode s h)]
  | json s =>
    rw [encode, decode_tag6 _ _ (decodePrefixed_encode s h)]
  | blob s =>
    rw [encode, decode_tag7 _ _ (decodePrefixed_encode s h)]

theorem decode_tag1_err (p : List Nat) (h : p.length ≠ 8) :
    decode (1 :: p) = .error ⟨1 :: p⟩ := by
  simp [decode, h]

theorem decode_tag2_err (p : List Nat) (h : p.length ≠ 8) :
    decode (2 :: p) = .error ⟨2 :: p⟩ := by
  simp [decode, h]

theorem decode_tag3_err (p : List Nat) (h : p.length ≠ 8) :
    decode (3 :: p) = .error ⟨3 :: p⟩ := by
  simp [decode, h]

theorem decode_tag4_err (p : List Nat) (h : p.length ≠ 8) :
    decode (4 :: p) = .error ⟨4 :: p⟩ := by
  simp [decode, h]

theorem decode_tag5_err (p : List Nat) (h : decodePrefixed p = none) :
    decode (5 :: p) = .error ⟨5 :: p⟩ := by
  simp [decode, h]

theorem decode_tag6_err (p : List Nat) (h : decodePrefixed p = none) :
    decode (6 :: p) = .error ⟨6 :: p⟩ := by
  simp [decode, h]

theorem decode_tag7_err (p : List Nat) (h : decodePrefixed p = none) :
    decode (7 :: p) = .error ⟨7 :: p⟩ := by
  simp [decode, h]

theorem decodePrefixed_truncated (s : List Nat) (hs : s.length < 2 ^ 64)
    (m : Nat) (hm : m < 8 + s.length) :
    decodePrefixed ((natToLE 8 s.length ++ s).take m) = none := by
  have hq : (natToLE 8 s.length ++ s).length = 8 + s.length := by
    simp [natToLE_length]
  have hlen : ((natToLE 8 s.length ++ s).take m).length = m := by
    rw [List.length_take]
    omega
  unfold decodePrefixed
  split
  next hcond =>
    exfalso
    obtain ⟨h8, heq⟩ := hcond
    rw [hlen] at h8
    rw [List.length_drop, hlen, List.take_take, min_eq_left h8,
      List.take_append_of_le_length (by rw [natToLE_length]),
      List.take_of_length_le (by rw [natToLE_length]),
      leToNat_natToLE 8 s.length (by omega)] at heq
    omega
  next => rfl

/-- Decoding any strict prefix of a well-formed value's encoding fails
with an error carrying the truncated input itself. -/
theorem decode_truncated (v : Value) (n : Nat) (h : v.wf)
    (hn : n < (encode v).length) :
    decode ((encode v).take n) = .error ⟨(encode v).take n⟩ := by
  cases v with
  | bool b =>
    cases b <;> simp only [encode, List.length_cons, List.length_nil] at hn <;>
      interval_cases n <;> rfl
  | i64 i =>
    match n with
    | 0 => rfl
    | k + 1 =>
      rw [encode, List.take_succ_cons, decode_tag1_err]
      rw [encode, List.length_cons, natToLE_length] at hn
      rw [List.length_take, natToLE_length]
      omega
  | u64 m =>
    match n with
    | 0 => rfl
    | k + 1 =>
      rw [encode, List.take_succ_cons, decode_tag2_err]
      rw [encode, List.length_cons, natToLE_length] at hn
      rw [List.length_take, natToLE_length]
      omega
  | f64 bits =>
    match n with
    | 0 => rfl
    | k + 1 =>
      rw [encode, List.take_succ_cons, decode_tag3_err]
      rw [encode, List.length_cons] at hn
      rw [List.length_take]
      simp only [Value.wf] at h
      omega
  | instant m =>
    match n with
    | 0 => rfl
    | k + 1 =>
      rw [encode, List.take_succ_cons, decode_tag4_err]
      rw [encode, List.length_cons, natToLE_length] at hn
      rw [List.length_take, natToLE_length]
      omega
  | str s =>
    match n with
    | 0 => rfl
    | k + 1 =>
      rw [encode, List.length_cons, List.length_append, natToLE_length] at hn
      rw [encode, List.take_succ_cons, decode_tag5_err _
        (decodePrefixed_truncated s h k (by omega))]
  | json s =>
    match n with
    | 0 => rfl
    | k + 1 =>
      rw [encode, List.length_cons, List.length_append, natToLE_length] at hn
      rw [encode, List.take_succ_cons, decode_tag6_err _
        (decodePrefixed_truncated s h k (by omega))]
  | blob s =>
    match n with
    | 0 => rfl
    | k + 1 =>
      rw [encode, List.length_cons, List.length_append, natToLE_length] at hn
      rw [encode, List.take_succ_cons, decode_tag7_err _
        (decodePrefixed_truncated s h k (by omega))]

/-- Decode is total and every failure reports the offending input. -/
theorem decode_total (bs : List Nat) :
    (∃ v, decode bs = .ok v) ∨ decode bs = .error ⟨bs⟩ := by
  cases bs with
  | nil => right; rfl
  | cons t p =>
    unfold decode
    repeat' split
    all_goals first
      | (left; exact ⟨_, rfl⟩)
      | (right; rfl)

/-! ## Association lists

Store contents and the environment's set of named databases are
modelled as association lists, first binding wins. -/

/-- First binding for `a`, if any. -/
def aGet {α β : Type} [DecidableEq α] (d : List (α × β)) (a : α) : Option β :=
  match d with
  | [] => none
  | (a', b) :: rest => if a' = a then some b else aGet rest a

/-- Replace the first binding for `a`, or append one. -/
def aSet {α β : Type} [DecidableEq α] (d : List (α × β)) (a : α) (b : β) :
    List (α × β) :=
  match d with
  | [] => [(a, b)]
  | (a', b') :: rest => if a' = a then (a, b) :: rest else (a', b') :: aSet rest a b

/-- Remove every binding for `a`. -/
def aRemove {α β : Type} [DecidableEq α] (d : List (α × β)) (a : α) :
    List (α × β) :=
  match d with
  | [] => []
  | (a', b') :: rest => if a' = a then aRemove rest a else (a', b') :: aRemove rest a

theorem aGet_aSet_same {α β : Type} [DecidableEq α] (d : List (α × β)) (a : α) (b : β) :
    aGet (aSet d a b) a = some b := by
  induction d with
  | nil => simp [aSet, aGet]
  | cons hd rest ih =>
    obtain ⟨a', b'⟩ := hd
    by_cases h : a' = a <;> simp [aSet, aGet, h, ih]

theorem aGet_aSet_other {α β : Type} [DecidableEq α] (d : List (α × β)) (a c : α)
    (b : β) (h : c ≠ a) : aGet (aSet d a b) c = aGet d c := by
  induction d with
  | nil => simp [aSet, aGet, Ne.symm h]
  | cons hd rest ih =>
    obtain ⟨a', b'⟩ := hd
    by_cases ha : a' = a
    · subst ha
      simp [aSet, aGet, Ne.symm h]
    · simp only [aSet, if_neg ha]
      by_cases hc : a' = c <;> simp [aGet, hc, ih]

theorem aGet_aRemove_same {α β : Type} [DecidableEq α] (d : List (α × β)) (a : α) :
    aGet (aRemove d a) a = none := by
  induction d with
  | nil => rfl
  | cons hd rest ih =>
    obtain ⟨a', b'⟩ := hd
    by_cases h : a' = a <;> simp [aRemove, aGet, h, ih]

/-! ## Environment state, Reader and Writer

Modelled from the spec: `env.rs` and `store/` are not in the tree.  Per
spec sections 3, 4.3 and 4.5, an environment holds a set of named
single-value stores, each mapping byte keys to encoded byte values; a
Reader is a point-in-time snapshot; a Writer buffers puts and deletes,
reads through its own buffer, and either commits all of them atomically
or aborts, discarding them all. -/

/-- A single-value store: byte keys to encoded byte values. -/
abbrev SingleDb := List (Bytes × Bytes)

/-- Modelled from the spec: the committed state of an environment's
named single-value stores (`env.rs` is absent from the tree). -/
abbrev EnvState := List (String × SingleDb)

/-- The database registered for store `s`, empty if not yet written. -/
def envDb (env : EnvState) (s : String) : SingleDb :=
  (aGet env s).getD []

/-- Committed bytes stored under key `k` of store `s`. -/
def envGet (env : EnvState) (s : String) (k : Bytes) : Option Bytes :=
  aGet (envDb env s) k

/-- State after storing `v` under key `k` of store `s`. -/
def envPut (env : EnvState) (s : String) (k : Bytes) (v : Bytes) : EnvState :=
  aSet env s (aSet (envDb env s) k v)

/-- State after deleting key `k` of store `s`. -/
def envDelete (env : EnvState) (s : String) (k : Bytes) : EnvState :=
  aSet env s (aRemove (envDb env s) k)

theorem envGet_envPut_same (env : EnvState) (s : String) (k : Bytes) (v : Bytes) :
    envGet (envPut env s k v) s k = some v := by
  unfold envGet envPut envDb
  rw [aGet_aSet_same]
  simp [aGet_aSet_same]

theorem envGet_envDelete_same (env : EnvState) (s : String) (k : Bytes) :
    envGet (envDelete env s k) s k = none := by
  unfold envGet envDelete envDb
  rw [aGet_aSet_same]
  simp [aGet_aRemove_same]

/-- Modelled from the spec: a Writer (`env.rs` is absent from the tree).
It records the environment state at its creation (`base`, restored on
abort) and its working state (`cur`, installed on commit). -/
structure Writer where
  base : EnvState
  cur : EnvState
deriving DecidableEq, Repr

/-- Modelled from the spec: a Reader, a point-in-time snapshot. -/
structure Reader where
  snapshot : EnvState
deriving DecidableEq, Repr

/-- Modelled from the spec: `Rkv.write()`, creating a Writer over the
current committed state. -/
def envWrite (env : EnvState) : Writer := ⟨env, env⟩

/-- Modelled from the spec: `Rkv.read()`, creating a Reader snapshot. -/
def envRead (env : EnvState) : Reader := ⟨env⟩

/-- Modelled from the spec: `store.put` through a Writer encodes the
value and inserts it into the Writer's working state. -/
def Writer.put (w : Writer) (s : String) (k : Bytes) (v : Value) : Writer :=
  ⟨w.base, envPut w.cur s k (encode v)⟩

/-- Modelled from the spec: `store.delete` through a Writer removes the
key from the Writer's working state. -/
def Writer.delete (w : Writer) (s : String) (k : Bytes) : Writer :=
  ⟨w.base, envDelete w.cur s k⟩

/-- Modelled from the spec: `writer.commit()` atomically installs the
Writer's working state as the committed state. -/
def Writer.commit (w : Writer) : EnvState := w.cur

/-- Modelled from the spec: `writer.abort()` discards the working state,
restoring the state from when the Writer began. -/
def Writer.abort (w : Writer) : EnvState := w.base

/-- Modelled from the spec: dropping a live, uncommitted Writer behaves
as an implicit abort. -/
def Writer.dropWithoutCommit (w : Writer) : EnvState := w.abort

/-- Modelled from the spec: `store.get` through a Writer reads the
Writer's own working state (read-your-writes), returning the raw bytes. -/
def Writer.get (w : Writer) (s : String) (k : Bytes) : Option Bytes :=
  envGet w.cur s k

/-- Writer read with decoding, as `Store.get` surfaces it. -/
def Writer.getValue (w : Writer) (s : String) (k : Bytes) :
    Option (Except DecodeError Value) :=
  (w.get s k).map decode

/-- Modelled from the spec: `store.get` through a Reader reads the
snapshot, returning the raw bytes. -/
def Reader.get (r : Reader) (s : String) (k : Bytes) : Option Bytes :=
  envGet r.snapshot s k

/-- Reader read with decoding, as `Store.get` surfaces it. -/
def Reader.getValue (r : Reader) (s : String) (k : Bytes) :
    Option (Except DecodeError Value) :=
  (r.get s k).map decode

/-- A put or delete buffered in a Writer. -/
inductive WOp where
  | put (s : String) (k : Bytes) (v : Value)
  | del (s : String) (k : Bytes)

/-- Apply a sequence of puts and deletes to a Writer. -/
def Writer.applyOps (w : Writer) : List WOp → Writer
  | [] => w
  | .put s k v :: rest => (w.put s k v).applyOps rest
  | .del s k :: rest => (w.delete s k).applyOps rest

theorem applyOps_base (w : Writer) (ops : List WOp) :
    (w.applyOps ops).base = w.base := by
  induction ops generalizing w with
  | nil => rfl
  | cons op rest ih =>
    cases op with
    | put s k v => simpa [Writer.applyOps, Writer.put] using ih (w.put s k v)
    | del s k => simpa [Writer.applyOps, Writer.delete] using ih (w.delete s k)

/-! ## Multi-value stores

Modelled from the spec: `store/multi.rs` is not in the tree.  Per spec
sections 3 and 4.3, a Multi store keeps, for each key, its set of
duplicate values; byte-identical duplicates are deduplicated by the
backend, and iteration for a key yields the duplicates in the backend's
byte ordering.  `delete(store, key, value)` removes only the single
(key, value) pair supplied. -/

/-- The backend's byte ordering: strict lexicographic order on byte
strings. -/
def bytesLt : Bytes → Bytes → Bool
  | [], [] => false
  | [], _ :: _ => true
  | _ :: _, [] => false
  | a :: as, b :: bs =>
    if a < b then true
    else if b < a then false
    else bytesLt as bs

theorem bytesLt_trans (a b c : Bytes) (hab : bytesLt a b = true)
    (hbc : bytesLt b c = true) : bytesLt a c = true := by
  induction a generalizing b c with
  | nil =>
    cases b with
    | nil => simp [bytesLt] at hab
    | cons y ys =>
      cases c with
      | nil => simp [bytesLt] at hbc
      | cons z zs => simp [bytesLt]
  | cons x xs ih =>
    cases b with
    | nil => simp [bytesLt] at hab
    | cons y ys =>
      cases c with
      | nil => simp [bytesLt] at hbc
      | cons z zs =>
        simp only [bytesLt] at hab hbc ⊢
        by_cases hxy : x < y
        · by_cases hyz : y < z
          · rw [if_pos (by omega)]
          · rw [if_neg (by omega)] at hbc
            by_cases hzy : z < y
            · simp [hzy] at hbc
            · rw [if_pos (by omega)]
        · rw [if_neg hxy] at hab
          by_cases hyx : y < x
          · simp [hyx] at hab
          · rw [if_neg hyx] at hab
            by_cases hyz : y < z
            · rw [if_pos (by omega)]
            · rw [if_neg hyz] at hbc
              by_cases hzy : z < y
              · simp [hzy] at hbc
              · rw [if_neg hzy] at hbc
                rw [if_neg (by omega), if_neg (by omega)]
                exact ih ys zs hab hbc

theorem bytesLt_total (a b : Bytes) (h : a ≠ b) :
    bytesLt a b = true ∨ bytesLt b a = true := by
  induction a generalizing b with
  | nil =>
    cases b with
    | nil => exact absurd rfl h
    | cons y ys => left; simp [bytesLt]
  | cons x xs ih =>
    cases b with
    | nil => right; simp [bytesLt]
    | cons y ys =>
      by_cases hxy : x = y
      · subst hxy
        have hne : xs ≠ ys := by
          intro he
          exact h (by rw [he])
        rcases ih ys hne with hl | hr
        · left
          simp [bytesLt, hl]
        · right
          simp [bytesLt, hr]
      · by_cases hlt : x < y
        · left
          simp [bytesLt, hlt]
        · right
          have : y < x := by omega
          simp [bytesLt, this]

/-- Insert a duplicate value in the backend's sorted order,
deduplicating byte-identical values. -/
def insertSorted (v : Bytes) : List Bytes → List Bytes
  | [] => [v]
  | x :: xs =>
    if v = x then x :: xs
    else if bytesLt v x then v :: x :: xs
    else x :: insertSorted v xs

theorem insertSorted_cons (v x : Bytes) (xs : List Bytes) :
    insertSorted v (x :: xs) =
      if v = x then x :: xs
      else if bytesLt v x then v :: x :: xs
      else x :: insertSorted v xs := rfl

theorem mem_insertSorted (v w : Bytes) (l : List Bytes) :
    w ∈ insertSorted v l ↔ w = v ∨ w ∈ l := by
  induction l with
  | nil => simp [insertSorted]
  | cons x xs ih =>
    by_cases h1 : v = x
    · subst h1
      rw [insertSorted_cons, if_pos rfl]
      simp only [List.mem_cons]
      tauto
    · by_cases h2 : bytesLt v x
      · rw [insertSorted_cons, if_neg h1, if_pos h2]
        simp [List.mem_cons]
      · rw [insertSorted_cons, if_neg h1, if_neg h2]
        simp only [List.mem_cons, ih]
        tauto

theorem insertSorted_perm (v : Bytes) (l : List Bytes) (h : v ∉ l) :
    List.Perm (insertSorted v l) (v :: l) := by
  induction l with
  | nil => rfl
  | cons x xs ih =>
    have hvx : v ≠ x := by
      intro he
      exact h (he ▸ List.mem_cons_self x xs)
    have hvxs : v ∉ xs := fun hm => h (List.mem_cons_of_mem x hm)
    by_cases h2 : bytesLt v x
    · rw [insertSorted_cons, if_neg hvx, if_pos h2]
    · rw [insertSorted_cons, if_neg hvx, if_neg h2]
      exact ((ih hvxs).cons x).trans (List.Perm.swap v x xs)

theorem insertSorted_sorted (v : Bytes) (l : List Bytes)
    (h : l.Pairwise (fun a b => bytesLt a b = true)) :
    (insertSorted v l).Pairwise (fun a b => bytesLt a b = true) := by
  induction l with
  | nil => simp [insertSorted]
  | cons x xs ih =>
    rcases List.pairwise_cons.mp h with ⟨hx, hxs⟩
    by_cases h1 : v = x
    · subst h1
      rw [insertSorted_cons, if_pos rfl]
      exact h
    · by_cases h2 : bytesLt v x
      · rw [insertSorted_cons, if_neg h1, if_pos h2]
        refine List.pairwise_cons.mpr ⟨?_, h⟩
        intro w hw
        rcases List.mem_cons.mp hw with hw | hw
        · exact hw ▸ h2
        · exact bytesLt_trans v x w h2 (hx w hw)
      · rw [insertSorted_cons, if_neg h1, if_neg h2]
        refine List.pairwise_cons.mpr ⟨?_, ih hxs⟩
        intro w hw
        rcases (mem_insertSorted v w xs).mp hw with hw | hw
        · subst hw
          rcases bytesLt_total w x (by exact h1) with hl | hr
          · exact absurd hl h2
          · exact hr
        · exact hx w hw

/-- A multi-value store: byte keys to sorted duplicate values. -/
abbrev MultiDb := List (Bytes × List Bytes)

/-- Modelled from the spec: the committed state of an environment's
named multi-value stores. -/
abbrev MultiEnvState := List (String × MultiDb)

/-- The duplicates recorded for key `k` of multi store `s`. -/
def multiGetAll (env : MultiEnvState) (s : String) (k : Bytes) : List Bytes :=
  (aGet ((aGet env s).getD []) k).getD []

/-- Modelled from the spec: `put` on a Multi store adds a duplicate for
the key without removing prior values, deduplicated if byte-identical,
kept in the backend's sort order. -/
def multiPut (env : MultiEnvState) (s : String) (k : Bytes) (v : Bytes) :
    MultiEnvState :=
  let db := (aGet env s).getD []
  aSet env s (aSet db k (insertSorted v ((aGet db k).getD [])))

/-- Modelled from the spec: `delete(store, key, value)` on a Multi store
removes only the single (key, value) pair supplied. -/
def multiDelete (env : MultiEnvState) (s : String) (k : Bytes) (v : Bytes) :
    MultiEnvState :=
  let db := (aGet env s).getD []
  aSet env s (aSet db k (((aGet db k).getD []).erase v))

theorem multiGetAll_multiPut (env : MultiEnvState) (s : String) (k : Bytes)
    (v : Bytes) :
    multiGetAll (multiPut env s k v) s k = insertSorted v (multiGetAll env s k) := by
  unfold multiGetAll multiPut
  rw [aGet_aSet_same]
  simp [aGet_aSet_same]

theorem multiGetAll_multiDelete (env : MultiEnvState) (s : String) (k : Bytes)
    (v : Bytes) :
    multiGetAll (multiDelete env s k v) s k = (multiGetAll env s k).erase v := by
  unfold multiGetAll multiDelete
  rw [aGet_aSet_same]
  simp [aGet_aSet_same]

/-! ## Writer mutual exclusion

Modelled from the spec: the single-writer rule is enforced in `env.rs`
(absent from the tree) via the environment's write lock.  Per spec
sections 3 and 5, `write()` blocks the calling thread until no Writer is
active; a Writer ends by commit or abort.  The interleaving of threads
is modelled as a labelled transition system over the set of writer
identifiers currently holding the write transaction: a `write()` call
completes (returns a Writer) only from a state with no active writer. -/

/-- An observable event of the writer lock: a `write()` call returning,
a commit, or an abort. -/
inductive WriterEvent where
  | beginW (w : Nat)
  | commitW (w : Nat)
  | abortW (w : Nat)

/-- Modelled from the spec: one transition of the environment's writer
lock.  `write()` returns only when no Writer is active; commit and abort
release the lock. -/
inductive WriterStep : List Nat → WriterEvent → List Nat → Prop where
  | beginW (w : Nat) : WriterStep [] (.beginW w) [w]
  | commitW (w : Nat) (s : List Nat) (h : w ∈ s) :
      WriterStep s (.commitW w) (s.erase w)
  | abortW (w : Nat) (s : List Nat) (h : w ∈ s) :
      WriterStep s (.abortW w) (s.erase w)

/-- States of the writer lock reachable from the initial state, in which
no Writer is active. -/
inductive WriterReachable : List Nat → Prop where
  | init : WriterReachable []
  | step (s : List Nat) (e : WriterEvent) (t : List Nat) :
      WriterReachable s → WriterStep s e t → WriterReachable t

/-! ## Manager

Modelled from the spec: `manager.rs` is not in the tree.  Per spec
sections 4.6 and 9, the Manager is a process-wide registry from
canonicalized path to a shared environment handle; `get_or_create`
canonicalizes the path, returns the registered environment on a hit, and
on a miss invokes the factory once, registers the fresh environment and
returns it.  Callers serialize through the Manager's lock
(`Manager::singleton().write()`), so concurrent calls are modelled as an
arbitrary interleaving into a sequence of atomic calls. -/

/-- A filesystem path, as a sequence of components. -/
abbrev MPath := List String

/-- Modelled from the spec: the Manager registry state.  `registry` maps
canonical paths to environment identities, `nextEnv` is the next fresh
environment identity, and `factoryCalls` records each canonical path for
which the factory has been invoked, once per invocation. -/
structure Manager where
  registry : List (MPath × Nat)
  nextEnv : Nat
  factoryCalls : List MPath

/-- The Manager before any environment has been opened. -/
def Manager.empty : Manager := ⟨[], 0, []⟩

/-- Modelled from the spec: `Manager.get_or_create(path, factory)`:
canonicalize, return the registered environment on a hit, otherwise run
the factory, register the new environment under the canonical path and
return it. -/
def getOrCreate (canon : MPath → MPath) (m : Manager) (p : MPath) :
    Manager × Nat :=
  match aGet m.registry (canon p) with
  | some id => (m, id)
  | none =>
    (⟨(canon p, m.nextEnv) :: m.registry, m.nextEnv + 1,
      canon p :: m.factoryCalls⟩, m.nextEnv)

/-- A serialized sequence of `get_or_create` calls. -/
def runCalls (canon : MPath → MPath) (m : Manager) : List MPath → Manager
  | [] => m
  | p :: ps => runCalls canon (getOrCreate canon m p).1 ps

theorem getOrCreate_stable (canon : MPath → MPath) (m : Manager) (q : MPath)
    (c : MPath) (id : Nat) (h : aGet m.registry c = some id) :
    aGet (getOrCreate canon m q).1.registry c = some id := by
  unfold getOrCreate
  cases hq : aGet m.registry (canon q) with
  | some id' => simp [hq, h]
  | none =>
    simp only [hq]
    have hne : canon q ≠ c := by
      intro he
      rw [he, h] at hq
      exact Option.noConfusion hq
    simpa [aGet, hne] using h

theorem runCalls_stable (canon : MPath → MPath) (m : Manager) (qs : List MPath)
    (c : MPath) (id : Nat) (h : aGet m.registry c = some id) :
    aGet (runCalls canon m qs).registry c = some id := by
  induction qs generalizing m with
  | nil => exact h
  | cons q qs ih =>
    exact ih (getOrCreate canon m q).1 (getOrCreate_stable canon m q c id h)

theorem getOrCreate_hit (canon : MPath → MPath) (m : Manager) (p : MPath)
    (id : Nat) (h : aGet m.registry (canon p) = some id) :
    getOrCreate canon m p = (m, id) := by
  unfold getOrCreate
  rw [h]

theorem getOrCreate_registered (canon : MPath → MPath) (m : Manager) (p : MPath) :
    aGet (getOrCreate canon m p).1.registry (canon p) =
      some (getOrCreate canon m p).2 := by
  unfold getOrCreate
  cases hq : aGet m.registry (canon p) with
  | some id => simp [hq]
  | none => simp [hq, aGet]

/-- The Manager invariant tying factory invocations to registry entries:
each canonical path appears at most once among the factory invocations,
exactly when it is registered. -/
def ManagerInv (m : Manager) : Prop :=
  m.factoryCalls.Nodup ∧
  ∀ c, c ∈ m.factoryCalls ↔ (aGet m.registry c).isSome

theorem managerInv_empty : ManagerInv Manager.empty := by
  constructor
  · exact List.nodup_nil
  · intro c
    simp [Manager.empty, aGet]

theorem managerInv_getOrCreate (canon : MPath → MPath) (m : Manager) (p : MPath)
    (h : ManagerInv m) : ManagerInv (getOrCreate canon m p).1 := by
  obtain ⟨hnd, hiff⟩ := h
  cases hq : aGet m.registry (canon p) with
  | some id =>
    have hg : (getOrCreate canon m p).1 = m := by
      unfold getOrCreate
      rw [hq]
    rw [hg]
    exact ⟨hnd, hiff⟩
  | none =>
    have hg : (getOrCreate canon m p).1 =
        ⟨(canon p, m.nextEnv) :: m.registry, m.nextEnv + 1,
          canon p :: m.factoryCalls⟩ := by
      unfold getOrCreate
      rw [hq]
    rw [hg]
    constructor
    · refine List.nodup_cons.mpr ⟨?_, hnd⟩
      intro hmem
      have := (hiff (canon p)).mp hmem
      rw [hq] at this
      simp at this
    · intro c
      by_cases hc : canon p = c
      · subst hc
        simp [aGet, List.mem_cons]
      · simp only [List.mem_cons, aGet, if_neg hc]
        rw [← hiff c]
        constructor
        · rintro (he | hm)
          · exact absurd he.symm hc
          · exact hm
        · intro hm
          exact Or.inr hm

theorem managerInv_runCalls (canon : MPath → MPath) (m : Manager)
    (ps : List MPath) (h : ManagerInv m) : ManagerInv (runCalls canon m ps) := by
  induction ps generalizing m with
  | nil => exact h
  | cons p ps ih => exact ih _ (managerInv_getOrCreate canon m p h)

/-! ## LMDB backend adapter

Embedded from `src/backend/impl_lmdb/environment.rs`.  The underlying
`lmdb` crate and the filesystem are external collaborators; their
handles are opaque and the outcomes of their fallible calls enter the
embedding as explicit parameters. -/

/-- An opaque error of the underlying `lmdb` crate. -/
abbrev LmdbErr := Nat

/-- An opaque `std::io::Error` from `fs::create_dir_all`. -/
abbrev IoErr := Nat

/-- An opaque handle of an opened `lmdb::Environment`. -/
abbrev LmdbEnv := Nat

/-- An opaque handle of an `lmdb::Database`. -/
abbrev LmdbDb := Nat

/-- An opaque `lmdb::RoTransaction` handle. -/
abbrev LmdbRoTxn := Nat

/-- An opaque `lmdb::RwTransaction` handle. -/
abbrev LmdbRwTxn := Nat

/-- An opaque `lmdb::Stat`. -/
abbrev LmdbStat := Nat

/-- An opaque `lmdb::Info`. -/
abbrev LmdbInfo := Nat

/-- An opaque `lmdb::DatabaseFlags` value. -/
abbrev LmdbDbFlags := Nat

/-- The filesystem path handed to `open`, as the adapter sees it. -/
abbrev FsPath := String

/-- `ErrorImpl` of the LMDB backend: the variants reachable from
`environment.rs` (`LmdbError`, `DirectoryDoesNotExistError` carrying the
path, and `IoError` wrapping the underlying I/O error). -/
inductive ErrorImpl where
  | LmdbError (e : LmdbErr)
  | DirectoryDoesNotExistError (path : FsPath)
  | IoError (e : IoErr)
deriving DecidableEq, Repr

/-- `EnvironmentImpl`: a newtype over the opened `lmdb::Environment`. -/
structure EnvironmentImpl where
  inner : LmdbEnv
deriving DecidableEq, Repr

/-- `DatabaseImpl`: a newtype over `lmdb::Database`. -/
structure DatabaseImpl where
  inner : LmdbDb
deriving DecidableEq, Repr

/-- `StatImpl`: a newtype over `lmdb::Stat`. -/
structure StatImpl where
  inner : LmdbStat
deriving DecidableEq, Repr

/-- `InfoImpl`: a newtype over `lmdb::Info`. -/
structure InfoImpl where
  inner : LmdbInfo
deriving DecidableEq, Repr

/-- `RoTransactionImpl`: a newtype over `lmdb::RoTransaction`. -/
structure RoTransactionImpl where
  inner : LmdbRoTxn
deriving DecidableEq, Repr

/-- `RwTransactionImpl`: a newtype over `lmdb::RwTransaction`. -/
structure RwTransactionImpl where
  inner : LmdbRwTxn
deriving DecidableEq, Repr

/-- The external collaborators of `EnvironmentBuilderImpl::open`: the
filesystem's answers and the `lmdb` builder's open outcome, per path. -/
structure OpenWorld where
  isDir : FsPath → Bool
  createDirAll : FsPath → Except IoErr Unit
  lmdbOpen : FsPath → Except LmdbErr LmdbEnv

/-- `EnvironmentBuilderImpl`: the wrapped `lmdb::EnvironmentBuilder`
(opaque here) and the `make_dir` flag. -/
structure EnvironmentBuilderImpl where
  builder : Unit
  make_dir : Bool
deriving DecidableEq, Repr

/-- `EnvironmentBuilderImpl::new()`: a fresh `lmdb` builder with
`make_dir: false`. -/
def EnvironmentBuilderImpl.new : EnvironmentBuilderImpl :=
  { builder := (), make_dir := false }

/-- `set_make_dir_if_needed(&mut self, make_dir)`. -/
def EnvironmentBuilderImpl.set_make_dir_if_needed
    (b : EnvironmentBuilderImpl) (make_dir : Bool) : EnvironmentBuilderImpl :=
  { b with make_dir := make_dir }

/-- `EnvironmentBuilderImpl::open(&self, path)`.  The second component
records whether `fs::create_dir_all` was invoked.  Mirrors the source:
if the path is not a directory, fail with `DirectoryDoesNotExistError`
unless `make_dir` is set, in which case create the directory first,
wrapping a creation failure in `IoError`; then open the `lmdb`
environment, wrapping its errors in `LmdbError`. -/
def EnvironmentBuilderImpl.open (b : EnvironmentBuilderImpl) (w : OpenWorld)
    (path : FsPath) : Except ErrorImpl EnvironmentImpl × Bool :=
  if !(w.isDir path) then
    if !b.make_dir then
      (.error (.DirectoryDoesNotExistError path), false)
    else
      match w.createDirAll path with
      | .error e => (.error (.IoError e), true)
      | .ok _ =>
        ((w.lmdbOpen path).map EnvironmentImpl.mk |>.mapError .LmdbError, true)
  else
    ((w.lmdbOpen path).map EnvironmentImpl.mk |>.mapError .LmdbError, false)

/-- The outcomes of the underlying `lmdb::Environment`'s fallible calls,
as `BackendEnvironment for EnvironmentImpl` consumes them. -/
structure LmdbEnvWorld where
  openDbResult : Option String → Except LmdbErr LmdbDb
  createDbResult : Option String → LmdbDbFlags → Except LmdbErr LmdbDb
  beginRoTxnResult : Except LmdbErr LmdbRoTxn
  beginRwTxnResult : Except LmdbErr LmdbRwTxn
  syncResult : Bool → Except LmdbErr Unit
  statResult : Except LmdbErr LmdbStat
  infoResult : Except LmdbErr LmdbInfo
  freelistResult : Except LmdbErr Nat
  setMapSizeResult : Nat → Except LmdbErr Unit

/-- `EnvironmentImpl::open_db`. -/
def EnvironmentImpl.open_db (w : LmdbEnvWorld) (name : Option String) :
    Except ErrorImpl DatabaseImpl :=
  (w.openDbResult name).map DatabaseImpl.mk |>.mapError .LmdbError

/-- `EnvironmentImpl::create_db`. -/
def EnvironmentImpl.create_db (w : LmdbEnvWorld) (name : Option String)
    (flags : LmdbDbFlags) : Except ErrorImpl DatabaseImpl :=
  (w.createDbResult name flags).map DatabaseImpl.mk |>.mapError .LmdbError

/-- `EnvironmentImpl::begin_ro_txn`. -/
def EnvironmentImpl.begin_ro_txn (w : LmdbEnvWorld) :
    Except ErrorImpl RoTransactionImpl :=
  w.beginRoTxnResult.map RoTransactionImpl.mk |>.mapError .LmdbError

/-- `EnvironmentImpl::begin_rw_txn`. -/
def EnvironmentImpl.begin_rw_txn (w : LmdbEnvWorld) :
    Except ErrorImpl RwTransactionImpl :=
  w.beginRwTxnResult.map RwTransactionImpl.mk |>.mapError .LmdbError

/-- `EnvironmentImpl::sync`. -/
def EnvironmentImpl.sync (w : LmdbEnvWorld) (force : Bool) :
    Except ErrorImpl Unit :=
  (w.syncResult force).mapError .LmdbError

/-- `EnvironmentImpl::stat`. -/
def EnvironmentImpl.stat (w : LmdbEnvWorld) : Except ErrorImpl StatImpl :=
  w.statResult.map StatImpl.mk |>.mapError .LmdbError

/-- `EnvironmentImpl::info`. -/
def EnvironmentImpl.info (w : LmdbEnvWorld) : Except ErrorImpl InfoImpl :=
  w.infoResult.map InfoImpl.mk |>.mapError .LmdbError

/-- `EnvironmentImpl::freelist`. -/
def EnvironmentImpl.freelist (w : LmdbEnvWorld) : Except ErrorImpl Nat :=
  w.freelistResult.mapError .LmdbError

/-- `EnvironmentImpl::set_map_size`. -/
def EnvironmentImpl.set_map_size (w : LmdbEnvWorld) (size : Nat) :
    Except ErrorImpl Unit :=
  (w.setMapSizeResult size).mapError .LmdbError

theorem count_le_one_of_nodup (l : List MPath) (h : l.Nodup) (c : MPath) :
    l.count c ≤ 1 := by
  induction l with
  | nil => simp
  | cons x xs ih =>
    rcases List.nodup_cons.mp h with ⟨hx, hxs⟩
    rw [List.count_cons]
    by_cases he : c = x
    · subst he
      have hz : xs.count c = 0 := List.count_eq_zero.mpr hx
      simp [hz]
    · simpa [he, Ne.symm he] using ih hxs

theorem count_perm_eq (l₁ l₂ : List Bytes) (h : List.Perm l₁ l₂) (a : Bytes) :
    l₁.count a = l₂.count a :=
  h.countP_eq _

/-- The error component of an adapter result, if it failed. -/
def errOf {α : Type} : Except ErrorImpl α → Option ErrorImpl
  | .error e => some e
  | .ok _ => none

/-! ## Claims -/

/-- C1: for every store S, key K and value V, `put(S,K,V)` in a Writer,
then `commit()`, then `get(S,K)` in a freshly created Reader returns
`Some(V)`: the stored bytes are exactly `encode V` and decoding them
recovers V byte-for-byte. -/
theorem C1_put_commit_fresh_read_get (env : EnvState) (S : String) (K : Bytes)
    (V : Value) (h : V.wf) :
    (envRead (((envWrite env).put S K V).commit)).get S K = some (encode V) ∧
    (envRead (((envWrite env).put S K V).commit)).getValue S K =
      some (.ok V) := by
  have hget : (envRead (((envWrite env).put S K V).commit)).get S K =
      some (encode V) := by
    show envGet (envPut env S K (encode V)) S K = some (encode V)
    exact envGet_envPut_same env S K (encode V)
  refine ⟨hget, ?_⟩
  rw [Reader.getValue, hget]
  simp [decode_encode V h]

/-- Witness for C1 at a concrete store, key and value. -/
theorem C1_witness :
    (envRead (((envWrite ([] : EnvState)).put "store" [105] (.u64 1234)).commit)).getValue
      "store" [105] = some (.ok (.u64 1234)) :=
  (C1_put_commit_fresh_read_get [] "store" [105] (.u64 1234) (by decide)).2

/-- C2: aborting a Writer — explicitly or implicitly on drop — after any
sequence of puts and deletes leaves the committed state of every store
exactly as it was when the Writer began. -/
theorem C2_abort_restores_state (env : EnvState) (ops : List WOp) :
    ((envWrite env).applyOps ops).abort = env ∧
    ((envWrite env).applyOps ops).dropWithoutCommit = env := by
  have h : ((envWrite env).applyOps ops).base = env :=
    applyOps_base (envWrite env) ops
  exact ⟨h, h⟩

/-- C5: a Writer reads its own uncommitted effects: after `put(S,K,V)`
and before commit, `writer.get(S,K)` is `Some(V)`; after `delete(S,K)`
and before commit, `writer.get(S,K)` is `None`. -/
theorem C5_writer_reads_own_writes (w : Writer) (S : String) (K : Bytes)
    (V : Value) (h : V.wf) :
    (w.put S K V).getValue S K = some (.ok V) ∧
    (w.delete S K).getValue S K = none := by
  constructor
  · show ((envGet (envPut w.cur S K (encode V)) S K).map decode) = some (.ok V)
    rw [envGet_envPut_same]
    simp [decode_encode V h]
  · show ((envGet (envDelete w.cur S K) S K).map decode) = none
    rw [envGet_envDelete_same]
    rfl

/-- Witness for C5 at a concrete Writer, store, key and value. -/
theorem C5_witness :
    ((envWrite ([] : EnvState)).put "s" [0] (.bool true)).getValue "s" [0] =
      some (.ok (.bool true)) ∧
    ((envWrite ([] : EnvState)).delete "s" [0]).getValue "s" [0] = none :=
  C5_writer_reads_own_writes (envWrite []) "s" [0] (.bool true) (by decide)

/-- C7: decode is total — on every input it returns a value or a
`DecodeError` carrying the offending bytes, never panicking; truncating
any well-formed encoding yields a decode error; and reading a value
stored as one type through an accessor expecting another type fails
with a decode error instead of coercing. -/
theorem C7_decode_rejects_malformed :
    (∀ bs, (∃ v, decode bs = .ok v) ∨ decode bs = .error ⟨bs⟩) ∧
    (∀ (v : Value) (n : Nat), v.wf → n < (encode v).length →
      decode ((encode v).take n) = .error ⟨(encode v).take n⟩) ∧
    (∀ (v : Value) (t : Tag), v.wf → tagOf v ≠ t →
      decodeAs t (encode v) = .error ⟨encode v⟩) := by
  refine ⟨decode_total, decode_truncated, ?_⟩
  intro v t hwf hne
  rw [decodeAs, decode_encode v hwf]
  simp [hne]

/-- Witness for C7: truncating a concrete u64 encoding fails, and
reading a concrete u64 through the string accessor fails. -/
theorem C7_witness :
    decode ((encode (.u64 1234)).take 3) = .error ⟨(encode (.u64 1234)).take 3⟩ ∧
    decodeAs .str (encode (.u64 1234)) = .error ⟨encode (.u64 1234)⟩ :=
  ⟨C7_decode_rejects_malformed.2.1 (.u64 1234) 3 (by decide) (by decide),
   C7_decode_rejects_malformed.2.2 (.u64 1234) .str (by decide) (by decide)⟩

/-- C3: at most one Writer is active per Environment at any time, and a
`write()` call cannot return while another Writer is active — it returns
only once the active Writer has committed or aborted. -/
theorem C3_single_writer_exclusion (s : List Nat) :
    (WriterReachable s → s.length ≤ 1) ∧
    (∀ (w : Nat) (t : List Nat), s ≠ [] → ¬ WriterStep s (.beginW w) t) := by
  constructor
  · intro h
    induction h with
    | init => simp
    | step s e t hr hs ih =>
      cases hs with
      | beginW w => simp
      | commitW w s hm =>
        exact le_trans (List.Sublist.length_le (List.erase_sublist w s)) ih
      | abortW w s hm =>
        exact le_trans (List.Sublist.length_le (List.erase_sublist w s)) ih
  · intro w t hne hstep
    cases hstep
    exact hne rfl

/-- Witness for C3: a state with one granted writer is reachable and
satisfies the bound, and `write()` cannot complete while writer 7 is
active. -/
theorem C3_witness :
    ([5] : List Nat).length ≤ 1 ∧ ¬ WriterStep [7] (.beginW 9) [9, 7] :=
  ⟨(C3_single_writer_exclusion [5]).1
      (WriterReachable.step [] (.beginW 5) [5] WriterReachable.init
        (WriterStep.beginW 5)),
   (C3_single_writer_exclusion [7]).2 9 [9, 7] (by decide)⟩

/-- C4: in any serialized interleaving of `get_or_create` calls, two
calls whose paths share a canonical form return the same environment,
regardless of the calls before or between them, and the factory runs at
most once per canonical path. -/
theorem C4_manager_one_env_per_path (canon : MPath → MPath)
    (ps qs : List MPath) (p q c : MPath) (hpq : canon p = canon q) :
    (getOrCreate canon
        (runCalls canon (getOrCreate canon (runCalls canon Manager.empty ps) p).1 qs)
        q).2 =
      (getOrCreate canon (runCalls canon Manager.empty ps) p).2 ∧
    (runCalls canon
        (getOrCreate canon (runCalls canon Manager.empty ps) p).1
        qs).factoryCalls.count c ≤ 1 := by
  constructor
  · have h1 := getOrCreate_registered canon (runCalls canon Manager.empty ps) p
    have h2 := runCalls_stable canon
      (getOrCreate canon (runCalls canon Manager.empty ps) p).1 qs (canon p)
      (getOrCreate canon (runCalls canon Manager.empty ps) p).2 h1
    have h3 : aGet (runCalls canon
        (getOrCreate canon (runCalls canon Manager.empty ps) p).1 qs).registry
        (canon q) = some (getOrCreate canon (runCalls canon Manager.empty ps) p).2 := by
      rw [← hpq]
      exact h2
    rw [getOrCreate_hit canon _ q _ h3]
  · have hinv : ManagerInv (runCalls canon
        (getOrCreate canon (runCalls canon Manager.empty ps) p).1 qs) :=
      managerInv_runCalls canon _ qs
        (managerInv_getOrCreate canon _ p
          (managerInv_runCalls canon Manager.empty ps managerInv_empty))
    exact count_le_one_of_nodup _ hinv.1 c

/-- Witness for C4 at concrete paths and runs. -/
theorem C4_witness :
    (getOrCreate id
        (runCalls id (getOrCreate id (runCalls id Manager.empty [["x"]]) ["a"]).1
          [["b"]])
        ["a"]).2 =
      (getOrCreate id (runCalls id Manager.empty [["x"]]) ["a"]).2 ∧
    (runCalls id
        (getOrCreate id (runCalls id Manager.empty [["x"]]) ["a"]).1
        [["b"]]).factoryCalls.count ["a"] ≤ 1 :=
  C4_manager_one_env_per_path id [["x"]] [["b"]] ["a"] ["a"] ["a"] rfl

/-- C6: putting three distinct duplicate values for one key of a Multi
store whose key was empty makes iteration for that key yield all three
exactly once each, sorted in the backend's byte order; deleting the pair
(K,V2) then removes only V2, leaving V1 and V3 retrievable. -/
theorem C6_multi_duplicates (env : MultiEnvState) (S : String)
    (K V1 V2 V3 : Bytes) (h12 : V1 ≠ V2) (h13 : V1 ≠ V3) (h23 : V2 ≠ V3)
    (h0 : multiGetAll env S K = []) :
    ((multiGetAll (multiPut (multiPut (multiPut env S K V1) S K V2) S K V3) S K).count V1 = 1 ∧
     (multiGetAll (multiPut (multiPut (multiPut env S K V1) S K V2) S K V3) S K).count V2 = 1 ∧
     (multiGetAll (multiPut (multiPut (multiPut env S K V1) S K V2) S K V3) S K).count V3 = 1 ∧
     (multiGetAll (multiPut (multiPut (multiPut env S K V1) S K V2) S K V3) S K).length = 3 ∧
     (multiGetAll (multiPut (multiPut (multiPut env S K V1) S K V2) S K V3) S K).Pairwise
       (fun a b => bytesLt a b = true)) ∧
    (V1 ∈ multiGetAll (multiDelete (multiPut (multiPut (multiPut env S K V1) S K V2) S K V3) S K V2) S K ∧
     V3 ∈ multiGetAll (multiDelete (multiPut (multiPut (multiPut env S K V1) S K V2) S K V3) S K V2) S K ∧
     V2 ∉ multiGetAll (multiDelete (multiPut (multiPut (multiPut env S K V1) S K V2) S K V3) S K V2) S K ∧
     (multiGetAll (multiDelete (multiPut (multiPut (multiPut env S K V1) S K V2) S K V3) S K V2) S K).length = 2) := by
  have e3 : multiGetAll (multiPut (multiPut (multiPut env S K V1) S K V2) S K V3) S K =
      insertSorted V3 (insertSorted V2 [V1]) := by
    rw [multiGetAll_multiPut, multiGetAll_multiPut, multiGetAll_multiPut, h0]
    rfl
  have hV2mem : V2 ∉ ([V1] : List Bytes) := by
    simp [List.mem_singleton]
    exact fun he => h12 he.symm
  have hV3mem : V3 ∉ insertSorted V2 [V1] := by
    intro hmem
    rcases (mem_insertSorted V2 V3 [V1]).mp hmem with he | hm
    · exact h23 he.symm
    · rw [List.mem_singleton] at hm
      exact h13 hm.symm
  have hperm : List.Perm (insertSorted V3 (insertSorted V2 [V1])) [V3, V2, V1] :=
    (insertSorted_perm V3 (insertSorted V2 [V1]) hV3mem).trans
      ((insertSorted_perm V2 [V1] hV2mem).cons V3)
  have hc1 : (insertSorted V3 (insertSorted V2 [V1])).count V1 = 1 := by
    rw [count_perm_eq _ _ hperm V1]
    simp [List.count_cons, h12, h13]
  have hc2 : (insertSorted V3 (insertSorted V2 [V1])).count V2 = 1 := by
    rw [count_perm_eq _ _ hperm V2]
    simp [List.count_cons, Ne.symm h12, h23]
  have hc3 : (insertSorted V3 (insertSorted V2 [V1])).count V3 = 1 := by
    rw [count_perm_eq _ _ hperm V3]
    simp [List.count_cons, Ne.symm h13, Ne.symm h23]
  have hlen : (insertSorted V3 (insertSorted V2 [V1])).length = 3 := by
    rw [hperm.length_eq]
    rfl
  have hsorted : (insertSorted V3 (insertSorted V2 [V1])).Pairwise
      (fun a b => bytesLt a b = true) := by
    refine insertSorted_sorted V3 _ (insertSorted_sorted V2 _ ?_)
    simp
  have edel : multiGetAll (multiDelete (multiPut (multiPut (multiPut env S K V1) S K V2) S K V3) S K V2) S K =
      (insertSorted V3 (insertSorted V2 [V1])).erase V2 := by
    rw [multiGetAll_multiDelete, e3]
  have hmem1 : V1 ∈ insertSorted V3 (insertSorted V2 [V1]) := by
    rw [hperm.mem_iff]
    simp
  have hmem2 : V2 ∈ insertSorted V3 (insertSorted V2 [V1]) := by
    rw [hperm.mem_iff]
    simp
  have hmem3 : V3 ∈ insertSorted V3 (insertSorted V2 [V1]) := by
    rw [hperm.mem_iff]
    simp
  refine ⟨⟨by rw [e3]; exact hc1, by rw [e3]; exact hc2, by rw [e3]; exact hc3,
    by rw [e3]; exact hlen, by rw [e3]; exact hsorted⟩, ?_, ?_, ?_, ?_⟩
  · rw [edel]
    exact (List.mem_erase_of_ne h12).mpr hmem1
  · rw [edel]
    exact (List.mem_erase_of_ne (Ne.symm h23)).mpr hmem3
  · rw [edel]
    have hcnt := List.count_erase_self V2 (insertSorted V3 (insertSorted V2 [V1]))
    rw [hc2] at hcnt
    exact List.count_eq_zero.mp hcnt
  · rw [edel, List.length_erase_of_mem hmem2, hlen]

/-- Witness for C6 at concrete distinct values. -/
theorem C6_witness :
    ((multiGetAll (multiPut (multiPut (multiPut ([] : MultiEnvState) "m" [9] [1]) "m" [9] [2]) "m" [9] [3]) "m" [9]).count [1] = 1 ∧
     (multiGetAll (multiPut (multiPut (multiPut ([] : MultiEnvState) "m" [9] [1]) "m" [9] [2]) "m" [9] [3]) "m" [9]).count [2] = 1 ∧
     (multiGetAll (multiPut (multiPut (multiPut ([] : MultiEnvState) "m" [9] [1]) "m" [9] [2]) "m" [9] [3]) "m" [9]).count [3] = 1 ∧
     (multiGetAll (multiPut (multiPut (multiPut ([] : MultiEnvState) "m" [9] [1]) "m" [9] [2]) "m" [9] [3]) "m" [9]).length = 3 ∧
     (multiGetAll (multiPut (multiPut (multiPut ([] : MultiEnvState) "m" [9] [1]) "m" [9] [2]) "m" [9] [3]) "m" [9]).Pairwise
       (fun a b => bytesLt a b = true)) ∧
    ([1] ∈ multiGetAll (multiDelete (multiPut (multiPut (multiPut ([] : MultiEnvState) "m" [9] [1]) "m" [9] [2]) "m" [9] [3]) "m" [9] [2]) "m" [9] ∧
     [3] ∈ multiGetAll (multiDelete (multiPut (multiPut (multiPut ([] : MultiEnvState) "m" [9] [1]) "m" [9] [2]) "m" [9] [3]) "m" [9] [2]) "m" [9] ∧
     [2] ∉ multiGetAll (multiDelete (multiPut (multiPut (multiPut ([] : MultiEnvState) "m" [9] [1]) "m" [9] [2]) "m" [9] [3]) "m" [9] [2]) "m" [9] ∧
     (multiGetAll (multiDelete (multiPut (multiPut (multiPut ([] : MultiEnvState) "m" [9] [1]) "m" [9] [2]) "m" [9] [3]) "m" [9] [2]) "m" [9]).length = 2) :=
  C6_multi_duplicates [] "m" [9] [1] [2] [3] (by decide) (by decide) (by decide) rfl

/-- C8: `EnvironmentBuilderImpl::open` on a path that is not a directory
fails with `DirectoryDoesNotExistError` — invoking no directory creation
— when `make_dir` is unset; when `make_dir` is set it first runs
`fs::create_dir_all` (propagating a failure as `IoError`) and then opens
the `lmdb` environment; when the path is already a directory it opens
the environment regardless of `make_dir`. -/
theorem C8_open_directory_policy (b : EnvironmentBuilderImpl) (w : OpenWorld)
    (p : FsPath) :
    (w.isDir p = false → b.make_dir = false →
      b.open w p = (.error (.DirectoryDoesNotExistError p), false)) ∧
    (w.isDir p = false → b.make_dir = true →
      (∀ e, w.createDirAll p = .error e →
        b.open w p = (.error (.IoError e), true)) ∧
      (w.createDirAll p = .ok () →
        b.open w p =
          ((w.lmdbOpen p).map EnvironmentImpl.mk |>.mapError .LmdbError, true))) ∧
    (w.isDir p = true →
      b.open w p =
        ((w.lmdbOpen p).map EnvironmentImpl.mk |>.mapError .LmdbError, false)) := by
  refine ⟨?_, ?_, ?_⟩
  · intro hdir hmk
    simp [EnvironmentBuilderImpl.open, hdir, hmk]
  · intro hdir hmk
    constructor
    · intro e he
      simp [EnvironmentBuilderImpl.open, hdir, hmk, he]
    · intro he
      simp [EnvironmentBuilderImpl.open, hdir, hmk, he]
  · intro hdir
    simp [EnvironmentBuilderImpl.open, hdir]

/-- Witness for C8 at a concrete world: missing directory with creation
disallowed, missing directory with creation allowed and failing, and an
existing directory. -/
theorem C8_witness :
    (EnvironmentBuilderImpl.new.open
        ⟨fun _ => false, fun _ => .error 3, fun _ => .ok 0⟩ "p" =
      (.error (.DirectoryDoesNotExistError "p"), false)) ∧
    ((EnvironmentBuilderImpl.new.set_make_dir_if_needed true).open
        ⟨fun _ => false, fun _ => .error 3, fun _ => .ok 0⟩ "p" =
      (.error (.IoError 3), true)) ∧
    (EnvironmentBuilderImpl.new.open
        ⟨fun _ => true, fun _ => .error 3, fun _ => .ok 0⟩ "p" =
      (.ok ⟨0⟩, false)) :=
  ⟨(C8_open_directory_policy .new
      ⟨fun _ => false, fun _ => .error 3, fun _ => .ok 0⟩ "p").1 rfl rfl,
   ((C8_open_directory_policy (EnvironmentBuilderImpl.new.set_make_dir_if_needed true)
      ⟨fun _ => false, fun _ => .error 3, fun _ => .ok 0⟩ "p").2.1 rfl rfl).1 3 rfl,
   (C8_open_directory_policy .new
      ⟨fun _ => true, fun _ => .error 3, fun _ => .ok 0⟩ "p").2.2 rfl⟩

/-- A backend environment world in which every underlying call fails
with the same `lmdb` error. -/
def failWorld : LmdbEnvWorld where
  openDbResult := fun _ => .error 7
  createDbResult := fun _ _ => .error 7
  beginRoTxnResult := .error 7
  beginRwTxnResult := .error 7
  syncResult := fun _ => .error 7
  statResult := .error 7
  infoResult := .error 7
  freelistResult := .error 7
  setMapSizeResult := fun _ => .error 7

/-- C9 counterexample: two different failing operations (`open_db` with
a path-like name and `sync`) surface byte-identical error values — the
`ErrorImpl::LmdbError` the adapter returns records neither the operation
nor the path, so the error itself does not carry that context. -/
theorem C9_counterexample :
    errOf (EnvironmentImpl.open_db failWorld (some "db")) = some (.LmdbError 7) ∧
    errOf (EnvironmentImpl.sync failWorld true) = some (.LmdbError 7) ∧
    errOf (EnvironmentImpl.open_db failWorld (some "db")) =
      errOf (EnvironmentImpl.sync failWorld true) :=
  ⟨rfl, rfl, rfl⟩

/-- C9 (amended): every operation of the backend environment adapter
passes an underlying backend error through to the caller wrapped as
`ErrorImpl::LmdbError`, never silently swallowing it; the adapter itself
attaches no path or operation context to the error. -/
theorem C9_error_passthrough (w : LmdbEnvWorld) (e : LmdbErr) :
    (∀ name, w.openDbResult name = .error e →
      EnvironmentImpl.open_db w name = .error (.LmdbError e)) ∧
    (∀ name flags, w.createDbResult name flags = .error e →
      EnvironmentImpl.create_db w name flags = .error (.LmdbError e)) ∧
    (w.beginRoTxnResult = .error e →
      EnvironmentImpl.begin_ro_txn w = .error (.LmdbError e)) ∧
    (w.beginRwTxnResult = .error e →
      EnvironmentImpl.begin_rw_txn w = .error (.LmdbError e)) ∧
    (∀ force, w.syncResult force = .error e →
      EnvironmentImpl.sync w force = .error (.LmdbError e)) ∧
    (w.statResult = .error e →
      EnvironmentImpl.stat w = .error (.LmdbError e)) ∧
    (w.infoResult = .error e →
      EnvironmentImpl.info w = .error (.LmdbError e)) ∧
    (w.freelistResult = .error e →
      EnvironmentImpl.freelist w = .error (.LmdbError e)) ∧
    (∀ size, w.setMapSizeResult size = .error e →
      EnvironmentImpl.set_map_size w size = .error (.LmdbError e)) := by
  refine ⟨?_, ?_, ?_, ?_, ?_, ?_, ?_, ?_, ?_⟩
  · intro name h
    simp [EnvironmentImpl.open_db, h, Except.map, Except.mapError]
  · intro name flags h
    simp [EnvironmentImpl.create_db, h, Except.map, Except.mapError]
  · intro h
    simp [EnvironmentImpl.begin_ro_txn, h, Except.map, Except.mapError]
  · intro h
    simp [EnvironmentImpl.begin_rw_txn, h, Except.map, Except.mapError]
  · intro force h
    simp [EnvironmentImpl.sync, h, Except.map, Except.mapError]
  · intro h
    simp [EnvironmentImpl.stat, h, Except.map, Except.mapError]
  · intro h
    simp [EnvironmentImpl.info, h, Except.map, Except.mapError]
  · intro h
    simp [EnvironmentImpl.freelist, h, Except.map, Except.mapError]
  · intro size h
    simp [EnvironmentImpl.set_map_size, h, Except.map, Except.mapError]

/-- Witness for C9 (amended) at the all-failing world. -/
theorem C9_witness :
    EnvironmentImpl.open_db failWorld none = .error (.LmdbError 7) ∧
    EnvironmentImpl.sync failWorld false = .error (.LmdbError 7) ∧
    EnvironmentImpl.stat failWorld = .error (.LmdbError 7) :=
  ⟨(C9_error_passthrough failWorld 7).1 none rfl,
   (C9_error_passthrough failWorld 7).2.2.2.2.1 false rfl,
   (C9_error_passthrough failWorld 7).2.2.2.2.2.1 rfl⟩

/-- C10: a freshly constructed `EnvironmentBuilderImpl` has `make_dir`
unset, so by default `open` on a path that is not a directory fails with
`DirectoryDoesNotExistError` and creates nothing. -/
theorem C10_default_no_dir_creation (w : OpenWorld) (p : FsPath)
    (h : w.isDir p = false) :
    EnvironmentBuilderImpl.new.make_dir = false ∧
    EnvironmentBuilderImpl.new.open w p =
      (.error (.DirectoryDoesNotExistError p), false) := by
  refine ⟨rfl, ?_⟩
  simp [EnvironmentBuilderImpl.open, EnvironmentBuilderImpl.new, h]

/-- Witness for C10 at a concrete world and path. -/
theorem C10_witness :
    EnvironmentBuilderImpl.new.make_dir = false ∧
    EnvironmentBuilderImpl.new.open
        ⟨fun _ => false, fun _ => .ok (), fun _ => .ok 0⟩ "nonexistent" =
      (.error (.DirectoryDoesNotExistError "nonexistent"), false) :=
  C10_default_no_dir_creation ⟨fun _ => false, fun _ => .ok (), fun _ => .ok 0⟩
    "nonexistent" rfl

end Rkv
